import Mathlib

/-!
Shallow embedding of the particle life-cycle engine of
src/main.py (wind simulation: emitter / absorber binary).

Positions and velocities are 3-vectors of reals; the particle pool is
three parallel lists (pos, vel, age), exactly as the numpy arrays
particles['pos'], particles['vel'], particles['age'] in the source.
Random sampling in emit_particles is modelled by passing the sampled
angle arrays (azimuthal_angles, polar_angles) as explicit list
arguments; the code draws exactly n samples for each, which appears as
a length hypothesis in the theorems.
-/

namespace WindSim

noncomputable section

/-- A 3-component real vector, standing for one row of an (N, 3) numpy array. -/
structure Vec3 where
  x : ℝ
  y : ℝ
  z : ℝ
deriving DecidableEq

/-- Componentwise vector addition. -/
def vadd (a b : Vec3) : Vec3 := ⟨a.x + b.x, a.y + b.y, a.z + b.z⟩

/-- Componentwise vector subtraction. -/
def vsub (a b : Vec3) : Vec3 := ⟨a.x - b.x, a.y - b.y, a.z - b.z⟩

/-- Scalar multiplication of a 3-vector. -/
def smul (c : ℝ) (v : Vec3) : Vec3 := ⟨c * v.x, c * v.y, c * v.z⟩

/-- Euclidean norm, np.linalg.norm of one row. -/
def norm3 (v : Vec3) : ℝ := Real.sqrt (v.x ^ 2 + v.y ^ 2 + v.z ^ 2)

/-- Euclidean distance between two points. -/
def dist3 (a b : Vec3) : ℝ := norm3 (vsub a b)

/-- The particle pool: three parallel sequences, as the global dict
particles = \x7b'pos': ..., 'vel': ..., 'age': ...\x7d (main.py lines 35-39). -/
structure Particles where
  pos : List Vec3
  vel : List Vec3
  age : List ℝ

/-- The initial pool: np.empty((0,3)) / np.empty((0,)). -/
def Particles.empty : Particles := ⟨[], [], []⟩

/- === Configuration constants, main.py lines 7-24 === -/

/-- red_radius = 1.2 (emitter orbital radius and emission shell radius). -/
def red_radius : ℝ := 1.2

/-- blue_radius = 3.0 (absorber orbital radius). -/
def blue_radius : ℝ := 3.0

/-- orbit_period = 120 (frames per orbit). -/
def orbit_period : ℕ := 120

/-- red_circ = 2 * np.pi * red_radius. -/
def red_circ : ℝ := 2 * Real.pi * red_radius

/-- red_speed = red_circ / orbit_period. -/
def red_speed : ℝ := red_circ / (orbit_period : ℝ)

/-- center = np.array([0.0, 0.0, 0.0]). -/
def center : Vec3 := ⟨0, 0, 0⟩

/-- particles_frame = 400 (particles emitted per frame). -/
def particles_frame : ℤ := 400

/-- wind_speed = red_speed (speed of newly emitted particles). -/
def wind_speed : ℝ := red_speed

/-- particle_life = 1000 (configured but never consulted by the code). -/
def particle_life : ℕ := 1000

/-- absorption_radius = 2.5. -/
def absorption_radius : ℝ := 2.5

/-- absorption_speed = 0.05. -/
def absorption_speed : ℝ := 0.05

/-- The removal threshold: the literal 0.1 in absorbed_mask = distances < 0.1
(main.py line 106). -/
def removal_radius : ℝ := 0.1

/-- theta = np.linspace(0, 2*pi, orbit_period, endpoint=False):
theta[i] = i * 2*pi / orbit_period. -/
def theta (i : ℕ) : ℝ := 2 * Real.pi * (i : ℝ) / (orbit_period : ℝ)

/- === emit_particles, main.py lines 55-79 === -/

/-- The sampled emission direction for one pair of angles: the code builds
(cos a * sin p, sin a * sin p, cos p) componentwise in lines 65-71. -/
def dir (a p : ℝ) : Vec3 :=
  ⟨Real.cos a * Real.sin p, Real.sin a * Real.sin p, Real.cos p⟩

/-- emit_particles(x, y, z, n, radius) with the two sampled angle arrays
made explicit.  Mirrors main.py lines 55-79: early return when n <= 0,
otherwise append new positions origin + radius * dir, velocities
wind_speed * dir and ages 0 to the pool. -/
def emit_particles (P : Particles) (x y z : ℝ) (n : ℤ) (radius : ℝ)
    (az pol : List ℝ) : Particles :=
  if n ≤ 0 then P
  else
    let ds := List.zipWith dir az pol
    { pos := P.pos ++ ds.map (fun d => vadd ⟨x, y, z⟩ (smul radius d))
      vel := P.vel ++ ds.map (fun d => smul wind_speed d)
      age := P.age ++ List.replicate n.toNat 0 }

/- === update_particles, main.py lines 82-110 === -/

/-- Step 1 of update_particles (lines 87-89): pos += vel, age += 1. -/
def moveStep (P : Particles) : Particles :=
  ⟨List.zipWith vadd P.pos P.vel, P.vel, P.age.map (fun a => a + 1)⟩

/-- distances = np.linalg.norm(pos - blue_pos, axis=1) (line 92). -/
def distList (b : Vec3) (ps : List Vec3) : List ℝ := ps.map (fun q => dist3 q b)

/-- The guarded norm of lines 98-100: norms[norms == 0] = 1.0. -/
def safeNorm (d : Vec3) : ℝ := if norm3 d = 0 then 1 else norm3 d

/-- absorption_force for one particle at post-integration position q
(lines 97-102): absorption_speed * (blue - q) / safeNorm (blue - q). -/
def absorptionForce (b q : Vec3) : Vec3 :=
  smul absorption_speed (smul (1 / safeNorm (vsub b q)) (vsub b q))

/-- One entry of the masked velocity assignment
vel[close_mask] = absorption_force (lines 95-103): the first component
of dq is the snapshot distance of the particle, the second its
post-integration position, v its current velocity. -/
def redirectVel (b : Vec3) (dq : ℝ × Vec3) (v : Vec3) : Vec3 :=
  if dq.1 < absorption_radius then absorptionForce b dq.2 else v

/-- keep-alive test of one snapshot distance: alive_mask = ~(distances < 0.1)
(lines 106-107). -/
def keepB (d : ℝ) : Bool := if d < removal_radius then false else true

/-- alive_mask as a boolean list over the snapshot distances. -/
def aliveMask (ds : List ℝ) : List Bool := ds.map keepB

/-- Boolean-mask indexing arr[mask] of numpy (lines 108-110): keep the
entries whose mask bit is true. -/
def maskFilter {α : Type _} (m : List Bool) (xs : List α) : List α :=
  (List.zipWith (fun b x => if b then [x] else []) m xs).flatten

/-- Lines 95-103 as a pool transformer: overwrite the velocity of every
particle whose distance to b is below absorption_radius; positions and
ages untouched. -/
def absorbStep (b : Vec3) (M : Particles) : Particles :=
  ⟨M.pos,
   List.zipWith (redirectVel b) ((distList b M.pos).zip M.pos) M.vel,
   M.age⟩

/-- Lines 105-110 as a pool transformer: drop every particle whose
distance to b is below removal_radius, from all three arrays at once. -/
def removeStep (b : Vec3) (M : Particles) : Particles :=
  let alive := aliveMask (distList b M.pos)
  ⟨maskFilter alive M.pos, maskFilter alive M.vel, maskFilter alive M.age⟩

/-- update_particles(blue_pos), main.py lines 82-110.  Faithful to the
source: the distance array is computed once, right after integration,
and that single snapshot feeds both the absorption mask and the removal
mask. -/
def update_particles (P : Particles) (b : Vec3) : Particles :=
  if P.pos.length = 0 then P
  else
    let moved := moveStep P
    let ds := distList b moved.pos
    let vel1 := List.zipWith (redirectVel b) (ds.zip moved.pos) moved.vel
    let alive := aliveMask ds
    ⟨maskFilter alive moved.pos, maskFilter alive vel1, maskFilter alive moved.age⟩

/- === update_frames orbit kinematics, main.py lines 118-129 === -/

/-- The red (emitter) position for a frame index (lines 121-123). -/
def red_pos (frame : ℕ) : Vec3 :=
  ⟨center.x + red_radius * Real.cos (theta (frame % orbit_period)),
   center.y + red_radius * Real.sin (theta (frame % orbit_period)),
   center.z⟩

/-- The blue (absorber) position for a frame index, opposite phase
(lines 126-129). -/
def blue_pos (frame : ℕ) : Vec3 :=
  ⟨center.x + blue_radius * Real.cos (theta (frame % orbit_period) + Real.pi),
   center.y + blue_radius * Real.sin (theta (frame % orbit_period) + Real.pi),
   center.z⟩

/-- The three parallel arrays have equal length. -/
def WellFormed (P : Particles) : Prop :=
  P.pos.length = P.vel.length ∧ P.vel.length = P.age.length

/-- Pool states reachable by the animation loop: start from the empty
pool, then any interleaving of emit (with angle arrays of the sampled
length n) and update calls. -/
inductive Reachable : Particles → Prop where
  | init : Reachable Particles.empty
  | emit : ∀ {P : Particles} (x y z : ℝ) (n : ℤ) (radius : ℝ)
      (az pol : List ℝ), Reachable P →
      az.length = n.toNat → pol.length = n.toNat →
      Reachable (emit_particles P x y z n radius az pol)
  | advance : ∀ {P : Particles} (b : Vec3), Reachable P →
      Reachable (update_particles P b)

/- === Helper lemmas === -/

theorem Vec3.ext_iff {a b : Vec3} : a = b ↔ a.x = b.x ∧ a.y = b.y ∧ a.z = b.z := by
  constructor
  · rintro rfl; exact ⟨rfl, rfl, rfl⟩
  · rcases a with ⟨ax, ay, az⟩
    rcases b with ⟨bx, by', bz⟩
    rintro ⟨h1, h2, h3⟩
    simp_all

/-- Every sampled emission direction is a unit vector. -/
theorem norm3_dir (a p : ℝ) : norm3 (dir a p) = 1 := by
  unfold norm3 dir
  have h : (Real.cos a * Real.sin p) ^ 2 + (Real.sin a * Real.sin p) ^ 2 +
      Real.cos p ^ 2 = 1 := by
    have hs := Real.sin_sq_add_cos_sq p
    have ha := Real.sin_sq_add_cos_sq a
    nlinarith [hs, ha]
  rw [h, Real.sqrt_one]

theorem norm3_smul (c : ℝ) (v : Vec3) : norm3 (smul c v) = |c| * norm3 v := by
  unfold norm3 smul
  have h : (c * v.x) ^ 2 + (c * v.y) ^ 2 + (c * v.z) ^ 2 =
      c ^ 2 * (v.x ^ 2 + v.y ^ 2 + v.z ^ 2) := by ring
  rw [h, Real.sqrt_mul (sq_nonneg c), Real.sqrt_sq_eq_abs]

theorem norm3_nonneg (v : Vec3) : 0 ≤ norm3 v := Real.sqrt_nonneg _

theorem norm3_vsub_comm (a b : Vec3) : norm3 (vsub a b) = norm3 (vsub b a) := by
  unfold norm3 vsub
  ring_nf

theorem vsub_vadd_smul (o : Vec3) (r : ℝ) (d : Vec3) :
    vsub (vadd o (smul r d)) o = smul r d := by
  simp [vsub, vadd, smul]

theorem dist3_vadd_smul (o : Vec3) (r : ℝ) (d : Vec3) :
    dist3 (vadd o (smul r d)) o = |r| * norm3 d := by
  rw [dist3, vsub_vadd_smul, norm3_smul]

theorem dist3_self (a : Vec3) : dist3 a a = 0 := by
  simp [dist3, vsub, norm3, Real.sqrt_eq_zero']

theorem vadd_zero (q : Vec3) : vadd q ⟨0, 0, 0⟩ = q := by
  simp [vadd]

theorem forall_mem_zipWith {α β γ : Type _} {f : α → β → γ} {p : γ → Prop}
    (h : ∀ a b, p (f a b)) :
    ∀ (l₁ : List α) (l₂ : List β), ∀ c ∈ List.zipWith f l₁ l₂, p c := by
  intro l₁
  induction l₁ with
  | nil => intro l₂ c hc; simp at hc
  | cons a t ih =>
    intro l₂ c hc
    cases l₂ with
    | nil => simp at hc
    | cons b t₂ =>
      simp only [List.zipWith_cons_cons, List.mem_cons] at hc
      rcases hc with hc | hc
      · rw [hc]; exact h a b
      · exact ih t₂ c hc

theorem maskFilter_nil {α : Type _} (m : List Bool) :
    maskFilter m ([] : List α) = [] := by
  cases m <;> rfl

theorem maskFilter_cons {α : Type _} (b : Bool) (m : List Bool) (x : α)
    (xs : List α) :
    maskFilter (b :: m) (x :: xs) =
      (if b then [x] else []) ++ maskFilter m xs := by
  simp [maskFilter]

/-- Two equally long lists filtered by the same mask keep equally many
entries. -/
theorem maskFilter_length_congr {α β : Type _} :
    ∀ (m : List Bool) (xs : List α) (ys : List β), xs.length = ys.length →
      (maskFilter m xs).length = (maskFilter m ys).length := by
  intro m
  induction m with
  | nil => intro xs ys _; rfl
  | cons b t ih =>
    intro xs ys h
    cases xs with
    | nil => cases ys with
      | nil => rfl
      | cons y ty => simp at h
    | cons x tx =>
      cases ys with
      | nil => simp at h
      | cons y ty =>
        simp only [List.length_cons, Nat.succ_inj] at h
        cases b <;> simp [maskFilter_cons, ih tx ty h]

/-- Mask indexing by a pointwise-computed boolean mask is filtering. -/
theorem maskFilter_map {α : Type _} (g : α → Bool) :
    ∀ xs : List α, maskFilter (xs.map g) xs = xs.filter g := by
  intro xs
  induction xs with
  | nil => rfl
  | cons x t ih =>
    cases hx : g x <;>
      simp [maskFilter_cons, List.filter_cons, hx, ih]

theorem maskFilter_length_filter {α : Type _} (g : α → Bool) (xs : List α) :
    (xs.filter g).length + (xs.filter (fun a => ! g a)).length = xs.length := by
  induction xs with
  | nil => rfl
  | cons x t ih =>
    cases hx : g x <;> simp [List.filter_cons, hx] <;> omega

/-- update_particles on a non-empty pool is exactly the staged
integrate-redirect-remove pipeline. -/
theorem update_eq_stages (P : Particles) (b : Vec3) (hne : P.pos.length ≠ 0) :
    update_particles P b = removeStep b (absorbStep b (moveStep P)) := by
  rw [update_particles, if_neg hne]
  rfl

theorem safeNorm_ne_zero (d : Vec3) : safeNorm d ≠ 0 := by
  unfold safeNorm
  by_cases h : norm3 d = 0
  · rw [if_pos h]; norm_num
  · rw [if_neg h]; exact h

theorem dist3_comm (a b : Vec3) : dist3 a b = dist3 b a := norm3_vsub_comm a b

theorem smul_assoc3 (a c : ℝ) (v : Vec3) : smul a (smul c v) = smul (a * c) v := by
  simp [smul, mul_assoc]

theorem norm3_zero : norm3 ⟨0, 0, 0⟩ = 0 := by
  simp [norm3]

theorem smul_zero3 (c : ℝ) : smul c ⟨0, 0, 0⟩ = ⟨0, 0, 0⟩ := by
  simp [smul]

theorem keepB_iff (d : ℝ) : keepB d = true ↔ removal_radius ≤ d := by
  unfold keepB
  by_cases h : d < removal_radius
  · simp [if_pos h, not_le.mpr h]
  · simp [if_neg h, not_lt.mp h]

/-- The post-removal position array is the post-integration one filtered
by the keep-alive test. -/
theorem update_pos_filter (P : Particles) (b : Vec3) (hne : P.pos.length ≠ 0) :
    (update_particles P b).pos =
      (moveStep P).pos.filter (fun q => keepB (dist3 q b)) := by
  rw [update_eq_stages P b hne]
  show maskFilter (aliveMask (distList b (moveStep P).pos)) (moveStep P).pos = _
  rw [aliveMask, distList, List.map_map]
  exact maskFilter_map _ _

theorem moveStep_pos_length (P : Particles) :
    (moveStep P).pos.length = min P.pos.length P.vel.length := by
  simp [moveStep, List.length_zipWith]

theorem moveStep_wellFormed (M : Particles) (h : WellFormed M) :
    WellFormed (moveStep M) := by
  obtain ⟨h1, h2⟩ := h
  constructor
  · simp only [moveStep, List.length_zipWith]
    omega
  · simp only [moveStep, List.length_map]
    omega

theorem absorbStep_wellFormed (b : Vec3) (M : Particles) (h : WellFormed M) :
    WellFormed (absorbStep b M) := by
  obtain ⟨h1, h2⟩ := h
  constructor
  · simp only [absorbStep, List.length_zipWith, List.length_zip, distList,
      List.length_map]
    omega
  · simp only [absorbStep, List.length_zipWith, List.length_zip, distList,
      List.length_map]
    omega

theorem removeStep_wellFormed (b : Vec3) (M : Particles) (h : WellFormed M) :
    WellFormed (removeStep b M) :=
  ⟨maskFilter_length_congr _ _ _ h.1, maskFilter_length_congr _ _ _ h.2⟩

/- === Claim theorems === -/

/-- C8: for every frame index, the emitter sits at
center + red_radius·(cos θ, sin θ, 0) and the absorber at
center + blue_radius·(cos(θ+π), sin(θ+π), 0) with
θ = theta (frame % orbit_period); concretely frame 0 gives emitter
(1.2, 0, 0) and absorber (−3.0, 0, 0). -/
theorem orbit_positions (frame : ℕ) :
    red_pos frame = vadd center (smul red_radius
      ⟨Real.cos (theta (frame % orbit_period)),
       Real.sin (theta (frame % orbit_period)), 0⟩) ∧
    blue_pos frame = vadd center (smul blue_radius
      ⟨Real.cos (theta (frame % orbit_period) + Real.pi),
       Real.sin (theta (frame % orbit_period) + Real.pi), 0⟩) ∧
    red_pos 0 = ⟨1.2, 0, 0⟩ ∧ blue_pos 0 = ⟨-3.0, 0, 0⟩ ∧
    center = ⟨0, 0, 0⟩ ∧ red_radius = 1.2 ∧ blue_radius = 3.0 ∧
    orbit_period = 120 := by
  refine ⟨?_, ?_, ?_, ?_, rfl, rfl, rfl, rfl⟩
  · simp [red_pos, vadd, smul, center]
  · simp [blue_pos, vadd, smul, center]
  · have h0 : theta 0 = 0 := by simp [theta]
    simp [red_pos, h0, center, red_radius]
  · have h0 : theta 0 = 0 := by simp [theta]
    simp [blue_pos, h0, center, blue_radius, Real.cos_pi, Real.sin_pi]

/-- C9: no core operation fails: emit with a non-positive count returns
the pool unchanged, advance on an empty pool is a no-op, and the guarded
norm used for redirection is never zero (a zero-length direction gets
norm 1), so no division by zero can occur. -/
theorem no_failure :
    (∀ (P : Particles) (x y z : ℝ) (n : ℤ) (radius : ℝ) (az pol : List ℝ),
      n ≤ 0 → emit_particles P x y z n radius az pol = P) ∧
    (∀ (P : Particles) (b : Vec3), P.pos.length = 0 → update_particles P b = P) ∧
    (∀ d : Vec3, safeNorm d ≠ 0) ∧
    (∀ d : Vec3, norm3 d = 0 → safeNorm d = 1) := by
  refine ⟨?_, ?_, safeNorm_ne_zero, ?_⟩
  · intro P x y z n radius az pol hn
    rw [emit_particles, if_pos hn]
  · intro P b h0
    rw [update_particles, if_pos h0]
  · intro d h
    rw [safeNorm, if_pos h]

theorem no_failure_witness :
    emit_particles Particles.empty 0 0 0 0 1 [] [] = Particles.empty ∧
    update_particles Particles.empty ⟨0, 0, 0⟩ = Particles.empty ∧
    safeNorm ⟨0, 0, 0⟩ ≠ 0 :=
  ⟨no_failure.1 Particles.empty 0 0 0 0 1 [] [] (le_refl 0),
   no_failure.2.1 Particles.empty ⟨0, 0, 0⟩ rfl,
   no_failure.2.2.1 ⟨0, 0, 0⟩⟩

/-- C4 counterexample: a particle exactly at the absorber is inside the
absorption radius, yet the velocity the code writes for it is the zero
vector, whose magnitude 0 is not the configured absorption speed 0.05:
the guard norms[norms == 0] = 1.0 leaves the direction itself zero. -/
theorem degenerate_overwrite_not_absorption_speed :
    dist3 ⟨1, 2, 3⟩ ⟨1, 2, 3⟩ < absorption_radius ∧
    (absorbStep ⟨1, 2, 3⟩ ⟨[⟨1, 2, 3⟩], [⟨1, 0, 0⟩], [0]⟩).vel = [⟨0, 0, 0⟩] ∧
    norm3 ⟨0, 0, 0⟩ ≠ absorption_speed := by
  have hd : dist3 (⟨1, 2, 3⟩ : Vec3) ⟨1, 2, 3⟩ = 0 := dist3_self _
  refine ⟨by rw [hd]; norm_num [absorption_radius], ?_, ?_⟩
  · show [redirectVel _ (dist3 (⟨1, 2, 3⟩ : Vec3) ⟨1, 2, 3⟩, ⟨1, 2, 3⟩) ⟨1, 0, 0⟩] = _
    rw [redirectVel]
    have hlt : (dist3 (⟨1, 2, 3⟩ : Vec3) ⟨1, 2, 3⟩, (⟨1, 2, 3⟩ : Vec3)).1 <
        absorption_radius := by
      rw [hd]; norm_num [absorption_radius]
    rw [if_pos hlt]
    have hsub : vsub (⟨1, 2, 3⟩ : Vec3) ⟨1, 2, 3⟩ = ⟨0, 0, 0⟩ := by
      simp [vsub]
    rw [absorptionForce, hsub, smul_zero3, smul_zero3]
  · rw [norm3_zero]; norm_num [absorption_speed]

/-- C4 amended: a particle whose position coincides with the absorber is
inside the absorption radius; the zero norm of its direction vector is
replaced by 1 (so the operation cannot divide by zero), and the velocity
written for it is the zero vector, of magnitude 0 — not of magnitude
absorption_speed as a unit fallback direction would give. -/
theorem degenerate_direction_guarded (b v : Vec3) :
    dist3 b b < absorption_radius ∧
    safeNorm (vsub b b) = 1 ∧
    redirectVel b (dist3 b b, b) v = ⟨0, 0, 0⟩ ∧
    norm3 (redirectVel b (dist3 b b, b) v) = 0 := by
  have hd : dist3 b b = 0 := dist3_self b
  have hsub : vsub b b = ⟨0, 0, 0⟩ := by simp [vsub]
  have hlt : dist3 b b < absorption_radius := by
    rw [hd]; norm_num [absorption_radius]
  have hforce : redirectVel b (dist3 b b, b) v = ⟨0, 0, 0⟩ := by
    rw [redirectVel, if_pos hlt, absorptionForce, hsub, smul_zero3, smul_zero3]
  refine ⟨hlt, ?_, hforce, by rw [hforce, norm3_zero]⟩
  rw [safeNorm, hsub, if_pos norm3_zero]

/-- C6: the absorption step changes no position, so the distance snapshot
taken right after integration is still exact for the removal mask; on a
non-empty pool update_particles coincides with the staged pipeline that
recomputes distances after redirection. -/
theorem distance_snapshot (P M : Particles) (b : Vec3) (hne : P.pos.length ≠ 0) :
    (absorbStep b M).pos = M.pos ∧
    distList b (absorbStep b M).pos = distList b M.pos ∧
    aliveMask (distList b (absorbStep b M).pos) = aliveMask (distList b M.pos) ∧
    update_particles P b = removeStep b (absorbStep b (moveStep P)) :=
  ⟨rfl, rfl, rfl, update_eq_stages P b hne⟩

theorem distance_snapshot_witness :
    (Particles.mk [⟨4, 0, 0⟩] [⟨1, 0, 0⟩] [0]).pos.length ≠ 0 ∧
    update_particles ⟨[⟨4, 0, 0⟩], [⟨1, 0, 0⟩], [0]⟩ ⟨0, 0, 0⟩ =
      removeStep ⟨0, 0, 0⟩ (absorbStep ⟨0, 0, 0⟩
        (moveStep ⟨[⟨4, 0, 0⟩], [⟨1, 0, 0⟩], [0]⟩)) :=
  ⟨by simp, (distance_snapshot ⟨[⟨4, 0, 0⟩], [⟨1, 0, 0⟩], [0]⟩
      Particles.empty ⟨0, 0, 0⟩ (by simp)).2.2.2⟩

/-- C7: on a non-empty pool, advance first replaces every position by
position + velocity and every age by age + 1 (the integration step of the
staged pipeline it equals), and a zero velocity leaves a position
unchanged. -/
theorem advance_integrates (P : Particles) (b : Vec3) (hne : P.pos.length ≠ 0) :
    update_particles P b = removeStep b (absorbStep b (moveStep P)) ∧
    (moveStep P).pos = List.zipWith vadd P.pos P.vel ∧
    (moveStep P).vel = P.vel ∧
    (moveStep P).age = P.age.map (fun a => a + 1) ∧
    (∀ q : Vec3, vadd q ⟨0, 0, 0⟩ = q) :=
  ⟨update_eq_stages P b hne, rfl, rfl, rfl, vadd_zero⟩

theorem advance_integrates_witness :
    (Particles.mk [⟨0, 0, 0⟩] [⟨0, 0, 0⟩] [0]).pos.length ≠ 0 ∧
    ((moveStep ⟨[⟨0, 0, 0⟩], [⟨0, 0, 0⟩], [0]⟩).pos =
      List.zipWith vadd [⟨0, 0, 0⟩] [⟨0, 0, 0⟩] ∧
    (moveStep ⟨[⟨0, 0, 0⟩], [⟨0, 0, 0⟩], [0]⟩).age = List.map (fun a => a + 1) [0]) :=
  ⟨by simp,
   ⟨(advance_integrates ⟨[⟨0, 0, 0⟩], [⟨0, 0, 0⟩], [0]⟩ ⟨9, 9, 9⟩ (by simp)).2.1,
    (advance_integrates ⟨[⟨0, 0, 0⟩], [⟨0, 0, 0⟩], [0]⟩ ⟨9, 9, 9⟩ (by simp)).2.2.2.1⟩⟩

/-- C3 counterexample: a particle at distance 0 from the absorber is
strictly inside the absorption radius, yet its overwritten velocity is
the zero vector, of magnitude 0 rather than absorption_speed. -/
theorem redirect_zero_distance_counterexample :
    dist3 ⟨0, 0, 0⟩ ⟨0, 0, 0⟩ < absorption_radius ∧
    redirectVel ⟨0, 0, 0⟩ (dist3 ⟨0, 0, 0⟩ ⟨0, 0, 0⟩, ⟨0, 0, 0⟩) ⟨1, 0, 0⟩ =
      ⟨0, 0, 0⟩ ∧
    norm3 ⟨0, 0, 0⟩ ≠ absorption_speed := by
  have hd : dist3 (⟨0, 0, 0⟩ : Vec3) ⟨0, 0, 0⟩ = 0 := dist3_self _
  have hlt : dist3 (⟨0, 0, 0⟩ : Vec3) ⟨0, 0, 0⟩ < absorption_radius := by
    rw [hd]; norm_num [absorption_radius]
  refine ⟨hlt, ?_, ?_⟩
  · have hsub : vsub (⟨0, 0, 0⟩ : Vec3) ⟨0, 0, 0⟩ = ⟨0, 0, 0⟩ := by simp [vsub]
    rw [redirectVel, if_pos hlt, absorptionForce, hsub, smul_zero3, smul_zero3]
  · rw [norm3_zero]; norm_num [absorption_speed]

/-- C3 amended: the absorption step overwrites, entry by entry, the
velocity of every particle whose snapshot distance is below the
absorption radius; for a particle at positive distance the written
velocity is absorption_speed times the unit vector toward the absorber —
it points toward the absorber and has magnitude absorption_speed — while
a particle at or beyond the absorption radius keeps its velocity. -/
theorem absorption_redirect (b : Vec3) (M : Particles) (q v : Vec3)
    (hclose : dist3 q b < absorption_radius) (hpos : 0 < dist3 q b) :
    (absorbStep b M).vel =
      List.zipWith (redirectVel b) ((distList b M.pos).zip M.pos) M.vel ∧
    redirectVel b (dist3 q b, q) v =
      smul absorption_speed (smul (1 / norm3 (vsub b q)) (vsub b q)) ∧
    norm3 (redirectVel b (dist3 q b, q) v) = absorption_speed ∧
    (∃ c : ℝ, 0 < c ∧ redirectVel b (dist3 q b, q) v = smul c (vsub b q)) ∧
    (∀ d w, absorption_radius ≤ d → redirectVel b (d, q) w = w) ∧
    (∀ P : Particles, P.pos.length ≠ 0 →
      update_particles P b = removeStep b (absorbStep b (moveStep P))) := by
  have hn : norm3 (vsub b q) = dist3 q b := (norm3_vsub_comm b q).trans rfl
  have hn0 : 0 < norm3 (vsub b q) := by rw [hn]; exact hpos
  have hsafe : safeNorm (vsub b q) = norm3 (vsub b q) := by
    rw [safeNorm, if_neg (ne_of_gt hn0)]
  have hred : redirectVel b (dist3 q b, q) v =
      smul absorption_speed (smul (1 / norm3 (vsub b q)) (vsub b q)) := by
    rw [redirectVel, if_pos hclose, absorptionForce, hsafe]
  refine ⟨rfl, hred, ?_, ?_, ?_, fun P hne => update_eq_stages P b hne⟩
  · rw [hred, norm3_smul, norm3_smul]
    rw [abs_of_pos (by positivity : (0:ℝ) < 1 / norm3 (vsub b q)),
      one_div, inv_mul_cancel₀ (ne_of_gt hn0), mul_one]
    norm_num [absorption_speed]
  · refine ⟨absorption_speed * (1 / norm3 (vsub b q)), ?_, ?_⟩
    · have : (0:ℝ) < absorption_speed := by norm_num [absorption_speed]
      positivity
    · rw [hred, smul_assoc3]
  · intro d w hfar
    rw [redirectVel, if_neg (not_lt.mpr hfar)]

theorem absorption_redirect_witness :
    dist3 ⟨1, 0, 0⟩ ⟨0, 0, 0⟩ < absorption_radius ∧
    0 < dist3 ⟨1, 0, 0⟩ ⟨0, 0, 0⟩ ∧
    norm3 (redirectVel ⟨0, 0, 0⟩ (dist3 ⟨1, 0, 0⟩ ⟨0, 0, 0⟩, ⟨1, 0, 0⟩)
      ⟨0, 0, 0⟩) = absorption_speed := by
  have hd : dist3 (⟨1, 0, 0⟩ : Vec3) ⟨0, 0, 0⟩ = 1 := by
    simp [dist3, vsub, norm3]
  have h1 : dist3 (⟨1, 0, 0⟩ : Vec3) ⟨0, 0, 0⟩ < absorption_radius := by
    rw [hd]; norm_num [absorption_radius]
  have h2 : 0 < dist3 (⟨1, 0, 0⟩ : Vec3) ⟨0, 0, 0⟩ := by rw [hd]; norm_num
  exact ⟨h1, h2,
    (absorption_redirect ⟨0, 0, 0⟩ Particles.empty ⟨1, 0, 0⟩ ⟨0, 0, 0⟩
      h1 h2).2.2.1⟩

/-- C2: with the sampled angle arrays of length n, emit with n ≤ 0 leaves
the pool unchanged; with n > 0 it appends exactly n particles, whose
positions are origin + radius · direction, whose velocities are
wind_speed · the same direction, whose ages are 0, every sampled
direction being a unit vector so every new particle lies at Euclidean
distance radius from the origin. -/
theorem emit_spec (P : Particles) (x y z : ℝ) (n : ℤ) (radius : ℝ)
    (az pol : List ℝ) (haz : az.length = n.toNat) (hpol : pol.length = n.toNat)
    (hr : 0 < radius) :
    (n ≤ 0 → emit_particles P x y z n radius az pol = P) ∧
    (0 < n →
      (emit_particles P x y z n radius az pol).pos =
        P.pos ++ (List.zipWith dir az pol).map
          (fun d => vadd ⟨x, y, z⟩ (smul radius d)) ∧
      (emit_particles P x y z n radius az pol).vel =
        P.vel ++ (List.zipWith dir az pol).map (fun d => smul wind_speed d) ∧
      (emit_particles P x y z n radius az pol).age =
        P.age ++ List.replicate n.toNat 0 ∧
      (emit_particles P x y z n radius az pol).pos.length =
        P.pos.length + n.toNat ∧
      (emit_particles P x y z n radius az pol).vel.length =
        P.vel.length + n.toNat ∧
      (emit_particles P x y z n radius az pol).age.length =
        P.age.length + n.toNat ∧
      (∀ d ∈ List.zipWith dir az pol, norm3 d = 1) ∧
      (∀ d ∈ List.zipWith dir az pol,
        dist3 (vadd ⟨x, y, z⟩ (smul radius d)) ⟨x, y, z⟩ = radius)) := by
  constructor
  · intro hn; rw [emit_particles, if_pos hn]
  · intro hn
    have hne : ¬ n ≤ 0 := not_le.mpr hn
    refine ⟨?_, ?_, ?_, ?_, ?_, ?_, forall_mem_zipWith norm3_dir az pol, ?_⟩
    · simp [emit_particles, hne]
    · simp [emit_particles, hne]
    · simp [emit_particles, hne]
    · simp [emit_particles, hne, List.length_zipWith, haz, hpol]
    · simp [emit_particles, hne, List.length_zipWith, haz, hpol]
    · simp [emit_particles, hne, List.length_zipWith, haz, hpol]
    · intro d hd
      have hu : norm3 d = 1 :=
        forall_mem_zipWith (p := fun v => norm3 v = 1) norm3_dir az pol d hd
      rw [dist3_vadd_smul, hu, mul_one, abs_of_pos hr]

theorem emit_spec_witness :
    (0:ℤ) < 1 ∧
    (emit_particles Particles.empty 0 0 0 1 1 [0] [0]).pos.length =
      Particles.empty.pos.length + (1:ℤ).toNat :=
  ⟨by norm_num,
   ((emit_spec Particles.empty 0 0 0 1 1 [0] [0] rfl rfl
      (by norm_num)).2 (by norm_num)).2.2.2.1⟩

/-- C1: every pool state reachable from the empty pool by any sequence
of emit and advance calls keeps the three parallel arrays at equal
length. -/
theorem pool_parallel_lengths (Q : Particles) (h : Reachable Q) :
    WellFormed Q := by
  induction h with
  | init => exact ⟨rfl, rfl⟩
  | @emit P x y z n radius az pol hP haz hpol ih =>
    by_cases hn : n ≤ 0
    · rw [emit_particles, if_pos hn]; exact ih
    · obtain ⟨h1, h2⟩ := ih
      constructor
      · simp only [emit_particles, if_neg hn, List.length_append,
          List.length_map, List.length_zipWith, List.length_replicate, haz, hpol]
        omega
      · simp only [emit_particles, if_neg hn, List.length_append,
          List.length_map, List.length_zipWith, List.length_replicate, haz, hpol]
        omega
  | @advance P b hP ih =>
    by_cases h0 : P.pos.length = 0
    · rw [update_particles, if_pos h0]; exact ih
    · rw [update_eq_stages P b h0]
      exact removeStep_wellFormed b _
        (absorbStep_wellFormed b _ (moveStep_wellFormed _ ih))

theorem pool_parallel_lengths_witness :
    WellFormed (update_particles
      (emit_particles Particles.empty 0 0 0 1 1.2 [0] [0]) ⟨0, 0, 0⟩) :=
  pool_parallel_lengths _
    (Reachable.advance ⟨0, 0, 0⟩
      (Reachable.emit 0 0 0 1 1.2 [0] [0] Reachable.init rfl rfl))

/-- C5: on a non-empty well-formed pool, advance keeps exactly the
post-integration particles whose snapshot distance is at least the
removal radius: the surviving position array is the filtered one, every
particle strictly inside the removal radius is absent, the pool shrinks
by exactly the number of such particles, and the velocity and age arrays
are cut to the same length. -/
theorem removal_spec (P : Particles) (b : Vec3) (hwf : WellFormed P)
    (hne : P.pos.length ≠ 0) :
    (update_particles P b).pos =
      (moveStep P).pos.filter (fun q => keepB (dist3 q b)) ∧
    (∀ q ∈ (moveStep P).pos, dist3 q b < removal_radius →
      q ∉ (update_particles P b).pos) ∧
    (update_particles P b).pos.length +
      ((moveStep P).pos.filter (fun q => ! keepB (dist3 q b))).length =
      P.pos.length ∧
    (update_particles P b).vel.length = (update_particles P b).pos.length ∧
    (update_particles P b).age.length = (update_particles P b).pos.length := by
  have hposf := update_pos_filter P b hne
  have hW : WellFormed (update_particles P b) := by
    rw [update_eq_stages P b hne]
    exact removeStep_wellFormed b _
      (absorbStep_wellFormed b _ (moveStep_wellFormed _ hwf))
  refine ⟨hposf, ?_, ?_, hW.1.symm, (hW.1.trans hW.2).symm⟩
  · intro q hq hlt hmem
    rw [hposf] at hmem
    have hk := (List.mem_filter.mp hmem).2
    rw [keepB_iff] at hk
    exact absurd hlt (not_lt.mpr hk)
  · rw [hposf, maskFilter_length_filter (fun q => keepB (dist3 q b))
      (moveStep P).pos, moveStep_pos_length, hwf.1]
    exact min_self _

theorem removal_spec_witness :
    WellFormed (Particles.mk [⟨0, 0, 0⟩] [⟨0, 0, 0⟩] [0]) ∧
    (Particles.mk [⟨0, 0, 0⟩] [⟨0, 0, 0⟩] [0]).pos.length ≠ 0 ∧
    (update_particles ⟨[⟨0, 0, 0⟩], [⟨0, 0, 0⟩], [0]⟩ ⟨0, 0, 0⟩).pos.length +
      ((moveStep ⟨[⟨0, 0, 0⟩], [⟨0, 0, 0⟩], [0]⟩).pos.filter
        (fun q => ! keepB (dist3 q ⟨0, 0, 0⟩))).length =
      (Particles.mk [⟨0, 0, 0⟩] [⟨0, 0, 0⟩] [0]).pos.length :=
  ⟨⟨rfl, rfl⟩, by simp,
   (removal_spec ⟨[⟨0, 0, 0⟩], [⟨0, 0, 0⟩], [0]⟩ ⟨0, 0, 0⟩ ⟨rfl, rfl⟩
     (by simp)).2.2.1⟩

/-- C10: every particle left in the pool after advance sits at snapshot
distance at least removal_radius from the absorber; in particular the
absorber position itself is never among the surviving positions. -/
theorem survivors_far_from_absorber (P : Particles) (b : Vec3) :
    (∀ q ∈ (update_particles P b).pos, removal_radius ≤ dist3 q b) ∧
    b ∉ (update_particles P b).pos := by
  by_cases h0 : P.pos.length = 0
  · rw [update_particles, if_pos h0]
    have hnil : P.pos = [] := List.length_eq_zero.mp h0
    rw [hnil]
    exact ⟨fun q hq => absurd hq (List.not_mem_nil q), List.not_mem_nil b⟩
  · have hposf := update_pos_filter P b h0
    constructor
    · intro q hq
      rw [hposf] at hq
      exact (keepB_iff _).mp (List.mem_filter.mp hq).2
    · intro hmem
      rw [hposf] at hmem
      have hk := (keepB_iff _).mp (List.mem_filter.mp hmem).2
      rw [dist3_self] at hk
      norm_num [removal_radius] at hk

theorem survivors_far_witness :
    (⟨0, 0, 0⟩ : Vec3) ∉
      (update_particles ⟨[⟨0, 0, 0⟩], [⟨1, 1, 1⟩], [0]⟩ ⟨0, 0, 0⟩).pos :=
  (survivors_far_from_absorber ⟨[⟨0, 0, 0⟩], [⟨1, 1, 1⟩], [0]⟩ ⟨0, 0, 0⟩).2

end

end WindSim
